import Mathlib

/-!
Verification of the EverythingInBot ingestion pipeline.

This file gives a shallow embedding, in Lean 4, of the pure core of the
repository's job/course ingestion pipeline:

* `app/utils/deduplication.py` — `generate_job_hash`, `generate_course_hash`
  (MD5 over a normalized field string) and `deduplicate_list`;
* `app/utils/normalization.py` — `normalize_job_data`,
  `determine_course_category`, `extract_tags`, `clean_text` and friends;
* `app/fetchers/utils.py` — the retry behaviour of `fetch_json`,
  `fetch_rss`, `fetch_html`, modelled against an oracle of per-attempt
  network outcomes;
* `app/fetchers/job_fetcher.py` / `course_fetcher.py` — the
  gather-and-concatenate orchestration of per-source fetchers;
* `app/tasks/fetch_jobs.py` — the store-writer loop (MongoDB
  `update_one(filter={hash}, {$set: doc}, upsert=True)` is modelled as an
  association-list store keyed by the record's hash);
* `app/scheduler.py` — one tick of the background scheduler loop.

Python strings are modelled as `List Char` (`Str`), with explicit models of
the `str.lower` / `str.strip` / `str.split` / substring-containment
operations used by the code (ASCII behaviour, which is what the code relies
on).  MD5 is implemented in full over `Nat` with explicit `% 2^32`
arithmetic, so hash equalities and inequalities are decidable.  Effectful
values (HTTP responses, task success and failure, the wall clock) enter as
explicit oracle parameters.  Datetime-valued record fields
(`posted_at`, `fetched_at`, `expires_at`), which depend on the wall clock
and are irrelevant to the claims below, are omitted from the embedded
records.
-/

set_option autoImplicit false
set_option maxRecDepth 40000

namespace EverythingInBot

/-- Python strings, modelled as lists of characters. -/
abbrev Str := List Char

/-- Coerce a Lean string literal into the `Str` model. -/
def str (s : String) : Str := s.data

/-! ## Python string primitives (ASCII model) -/

/-- The ASCII whitespace characters stripped by Python's `str.strip()` and
split on by `str.split()`. -/
def pyIsSpace (c : Char) : Bool :=
  c == ' ' || c == '\t' || c == '\n' || c == '\r' ||
  c == Char.ofNat 11 || c == Char.ofNat 12

/-- `str.lower` on a single character (ASCII range). -/
def pyLowerChar (c : Char) : Char :=
  if 'A' ≤ c && c ≤ 'Z' then Char.ofNat (c.toNat + 32) else c

/-- Python `str.lower()` (ASCII model). -/
def pyLower (s : Str) : Str := s.map pyLowerChar

/-- Python `str.strip()`: drop leading and trailing whitespace. -/
def pyStrip (s : Str) : Str :=
  ((s.dropWhile pyIsSpace).reverse.dropWhile pyIsSpace).reverse

/-- Does `hay` start with `needle`? -/
def strStartsWith : Str → Str → Bool
  | [], _ => true
  | _ :: _, [] => false
  | c :: cs, d :: ds => c == d && strStartsWith cs ds

/-- Python's `needle in hay` substring test. -/
def pyIn (needle : Str) : Str → Bool
  | [] => needle.isEmpty
  | c :: rest => strStartsWith needle (c :: rest) || pyIn needle rest

/-- Python `s.split(sep)` for a single-character separator: splits at every
occurrence of `sep`, keeping empty segments (so `"".split(',') = [""]`). -/
def pySplitChar (sep : Char) : Str → List Str
  | [] => [[]]
  | c :: rest =>
    if c == sep then [] :: pySplitChar sep rest
    else
      match pySplitChar sep rest with
      | [] => [[c]]
      | t :: ts => (c :: t) :: ts

/-- Accumulator loop for `str.split()` (split on whitespace runs, dropping
empty segments); `cur` holds the current word reversed. -/
def splitWsGo : Str → Str → List Str
  | [], cur => if cur.isEmpty then [] else [cur.reverse]
  | c :: rest, cur =>
    if pyIsSpace c then
      if cur.isEmpty then splitWsGo rest []
      else cur.reverse :: splitWsGo rest []
    else splitWsGo rest (c :: cur)

/-- Python `str.split()` with no argument. -/
def pySplitWs (s : Str) : List Str := splitWsGo s []

/-- Python `' '.join(words)`. -/
def joinSpace : List Str → Str
  | [] => []
  | [w] => w
  | w :: ws => w ++ ' ' :: joinSpace ws

/-! ## MD5 (`hashlib.md5`), over `Nat` with explicit `% 2^32` -/

/-- `2^32`, the modulus for 32-bit arithmetic. -/
def M32 : Nat := 4294967296

/-- 32-bit addition. -/
def add32 (a b : Nat) : Nat := (a + b) % M32

/-- 32-bit left rotation by `c` bits. -/
def rotl32 (x c : Nat) : Nat := ((x <<< c) ||| (x >>> (32 - c))) % M32

/-- 32-bit bitwise complement. -/
def not32 (x : Nat) : Nat := x ^^^ 4294967295

/-- The MD5 sine-derived round constants `K[0..63]`. -/
def mdK : List Nat :=
  [3614090360, 3905402710, 606105819, 3250441966, 4118548399, 1200080426,
   2821735955, 4249261313, 1770035416, 2336552879, 4294925233, 2304563134,
   1804603682, 4254626195, 2792965006, 1236535329, 4129170786, 3225465664,
   643717713, 3921069994, 3593408605, 38016083, 3634488961, 3889429448,
   568446438, 3275163606, 4107603335, 1163531501, 2850285829, 4243563512,
   1735328473, 2368359562, 4294588738, 2272392833, 1839030562, 4259657740,
   2763975236, 1272893353, 4139469664, 3200236656, 681279174, 3936430074,
   3572445317, 76029189, 3654602809, 3873151461, 530742520, 3299628645,
   4096336452, 1126891415, 2878612391, 4237533241, 1700485571, 2399980690,
   4293915773, 2240044497, 1873313359, 4264355552, 2734768916, 1309151649,
   4149444226, 3174756917, 718787259, 3951481745]

/-- The MD5 per-round left-rotation amounts `s[0..63]`. -/
def mdS : List Nat :=
  [7, 12, 17, 22, 7, 12, 17, 22, 7, 12, 17, 22, 7, 12, 17, 22,
   5, 9, 14, 20, 5, 9, 14, 20, 5, 9, 14, 20, 5, 9, 14, 20,
   4, 11, 16, 23, 4, 11, 16, 23, 4, 11, 16, 23, 4, 11, 16, 23,
   6, 10, 15, 21, 6, 10, 15, 21, 6, 10, 15, 21, 6, 10, 15, 21]

/-- The little-endian 32-bit word `M[g]` of a 64-byte block. -/
def blockWord (block : List Nat) (g : Nat) : Nat :=
  block.getD (4 * g) 0 + (block.getD (4 * g + 1) 0) * 256 +
    (block.getD (4 * g + 2) 0) * 65536 + (block.getD (4 * g + 3) 0) * 16777216

/-- One MD5 round: round index `i`, state `(a, b, c, d)`. -/
def md5Round (block : List Nat) (st : Nat × Nat × Nat × Nat) (i : Nat) :
    Nat × Nat × Nat × Nat :=
  let a := st.1; let b := st.2.1; let c := st.2.2.1; let d := st.2.2.2
  let fg : Nat × Nat :=
    if i < 16 then ((b &&& c) ||| (not32 b &&& d), i)
    else if i < 32 then ((d &&& b) ||| (not32 d &&& c), (5 * i + 1) % 16)
    else if i < 48 then (b ^^^ c ^^^ d, (3 * i + 5) % 16)
    else (c ^^^ (b ||| not32 d), (7 * i) % 16)
  let tmp := add32 (add32 (add32 a fg.1) (mdK.getD i 0)) (blockWord block fg.2)
  (d, add32 b (rotl32 tmp (mdS.getD i 0)), b, c)

/-- Process one 64-byte block, updating the MD5 state. -/
def md5Block (st : Nat × Nat × Nat × Nat) (block : List Nat) :
    Nat × Nat × Nat × Nat :=
  let r := (List.range 64).foldl (md5Round block) st
  (add32 st.1 r.1, add32 st.2.1 r.2.1, add32 st.2.2.1 r.2.2.1,
   add32 st.2.2.2 r.2.2.2)

/-- Split a byte list into 64-byte chunks; the fuel argument is a bound on
the number of chunks, so the recursion is structural (and kernel-reducible). -/
def chunks64Go : Nat → List Nat → List (List Nat)
  | 0, _ => []
  | fuel + 1, l => if l.isEmpty then [] else l.take 64 :: chunks64Go fuel (l.drop 64)

/-- Split a byte list into 64-byte chunks. -/
def chunks64 (l : List Nat) : List (List Nat) := chunks64Go (l.length / 64 + 1) l

/-- MD5 padding: append `0x80`, zero-pad to 56 mod 64, then the original
bit length mod `2^64` as 8 little-endian bytes. -/
def md5Pad (msg : List Nat) : List Nat :=
  let len := msg.length
  let padLen := (119 - len % 64) % 64
  let bits := (8 * len) % 18446744073709551616
  msg ++ 128 :: List.replicate padLen 0 ++
    [bits % 256, bits / 256 % 256, bits / 65536 % 256, bits / 16777216 % 256,
     bits / 4294967296 % 256, bits / 1099511627776 % 256,
     bits / 281474976710656 % 256, bits / 72057594037927936 % 256]

/-- A 32-bit word as 4 little-endian bytes. -/
def wordLE (x : Nat) : List Nat :=
  [x % 256, x / 256 % 256, x / 65536 % 256, x / 16777216 % 256]

/-- The 16-byte MD5 digest of a byte string. -/
def md5Digest (msg : List Nat) : List Nat :=
  let st := (chunks64 (md5Pad msg)).foldl md5Block
    (1732584193, 4023233417, 2562383102, 271733878)
  wordLE st.1 ++ wordLE st.2.1 ++ wordLE st.2.2.1 ++ wordLE st.2.2.2

/-- A hex digit character for `n < 16`. -/
def hexDigit (n : Nat) : Char :=
  if n < 10 then Char.ofNat (48 + n) else Char.ofNat (87 + n)

/-- A byte as two lowercase hex characters. -/
def byteHex (b : Nat) : Str := [hexDigit (b / 16), hexDigit (b % 16)]

/-- UTF-8 encoding of the character string (`str.encode('utf-8')`). -/
def utf8Bytes (s : Str) : List Nat :=
  s.flatMap fun c =>
    let n := c.toNat
    if n < 128 then [n]
    else if n < 2048 then [192 + n / 64, 128 + n % 64]
    else if n < 65536 then
      [224 + n / 4096, 128 + n / 64 % 64, 128 + n % 64]
    else
      [240 + n / 262144, 128 + n / 4096 % 64, 128 + n / 64 % 64, 128 + n % 64]

/-- `hashlib.md5(s.encode('utf-8')).hexdigest()`. -/
def md5Hex (s : Str) : Str := (md5Digest (utf8Bytes s)).flatMap byteHex

/-! ## `app/utils/deduplication.py` — content hashes -/

/-- `generate_job_hash`: MD5 hex digest of
`f"{title.lower().strip()}|{company.lower().strip()}|{url.strip()}"`. -/
def generate_job_hash (title company url : Str) : Str :=
  md5Hex (pyStrip (pyLower title) ++ '|' :: pyStrip (pyLower company) ++
    '|' :: pyStrip url)

/-- `generate_course_hash`: MD5 hex digest of
`f"{title.lower().strip()}|{platform.lower().strip()}"`. -/
def generate_course_hash (title platform : Str) : Str :=
  md5Hex (pyStrip (pyLower title) ++ '|' :: pyStrip (pyLower platform))

/-! ## `app/utils/deduplication.py` — `deduplicate_list` -/

/-- A pipeline record as seen by `deduplicate_list` and the store writer: a
dictionary with an optional `hash` entry (`item.get(hash_key)` is `none`
when the key is missing) and a payload of the remaining fields. -/
structure Item (α : Type) where
  hash? : Option Str
  data : α
deriving DecidableEq, Repr

/-- Python truthiness of `item.get('hash')`: a present, non-empty string. -/
def truthyHash {α : Type} (it : Item α) : Bool :=
  match it.hash? with
  | some h => !h.isEmpty
  | none => false

/-- The loop body of `deduplicate_list`: walk the items, keeping a `seen`
set of hashes and appending to `unique_items` (`acc`) each item whose hash
is truthy and unseen. -/
def dedupLoop {α : Type} : List (Item α) → List Str → List (Item α) →
    List Str × List (Item α)
  | [], seen, acc => (seen, acc)
  | it :: rest, seen, acc =>
    match it.hash? with
    | some h =>
      if !h.isEmpty && !seen.contains h then
        dedupLoop rest (h :: seen) (acc ++ [it])
      else dedupLoop rest seen acc
    | none => dedupLoop rest seen acc

/-- `deduplicate_list(items, hash_key='hash')`. -/
def deduplicate_list {α : Type} (items : List (Item α)) : List (Item α) :=
  (dedupLoop items [] []).2

/-! ## `app/utils/normalization.py` -/

/-- Python `a or b` for an optional string `a` (falsy: missing or empty). -/
def pyOrOpt (a : Option Str) (b : Option Str) : Option Str :=
  match a with
  | some s => if s.isEmpty then b else some s
  | none => b

/-- Python `a or d` where `d` is a (possibly empty) string default. -/
def pyOrStr (a : Option Str) (d : Str) : Str :=
  match a with
  | some s => if s.isEmpty then d else s
  | none => d

/-- The remainder of a `<...>` tag scan after the first character: consume
up to and past the first `'>'`. -/
def tagTail : Str → Option Str
  | [] => none
  | c :: rest => if c == '>' then some rest else tagTail rest

/-- Scan for the close of an HTML tag after a `'<'`: the regex `<[^>]+>`
needs at least one non-`'>'` character before the closing `'>'`. -/
def tagRemainder : Str → Option Str
  | [] => none
  | c :: rest => if c == '>' then none else tagTail rest

/-- `re.sub(r'<[^>]+>', '', text)` with a structural fuel bound (the fuel
is an upper bound on the number of scan steps, so `s.length` suffices). -/
def removeHtmlTagsGo : Nat → Str → Str
  | 0, s => s
  | _ + 1, [] => []
  | fuel + 1, c :: rest =>
    if c == '<' then
      match tagRemainder rest with
      | some rest' => removeHtmlTagsGo fuel rest'
      | none => c :: removeHtmlTagsGo fuel rest
    else c :: removeHtmlTagsGo fuel rest

/-- `re.sub(r'<[^>]+>', '', text)`. -/
def removeHtmlTags (s : Str) : Str := removeHtmlTagsGo s.length s

/-- `clean_text`: empty in, empty out; otherwise remove HTML tags, collapse
whitespace runs to single spaces, and strip. -/
def clean_text (s : Str) : Str :=
  if s.isEmpty then []
  else pyStrip (joinSpace (pySplitWs (removeHtmlTags s)))

/-- `determine_job_type(title, description, location)`. -/
def determine_job_type (title description location : Str) : Str :=
  let text := pyLower (title ++ ' ' :: description ++ ' ' :: location)
  if pyIn (str "remote") text || pyIn (str "work from home") text ||
      pyIn (str "wfh") text || pyIn (str "anywhere") text then str "remote"
  else if pyIn (str "hybrid") text then str "hybrid"
  else str "onsite"

/-- `determine_job_category(title, description, source)`. -/
def determine_job_category (title description source : Str) : Str :=
  let text := pyLower (title ++ ' ' :: description)
  if pyIn (str "sarkari") source || pyIn (str "govt") source ||
      pyIn (str "government") source then str "government"
  else if pyIn (str "intern") text then str "internship"
  else if pyIn (str "software") text || pyIn (str "developer") text ||
      pyIn (str "engineer") text || pyIn (str "programmer") text ||
      pyIn (str "python") text || pyIn (str "java") text ||
      pyIn (str "devops") text || pyIn (str "data") text then str "IT"
  else str "general"

/-- `extract_salary`: `None` stays `None`; otherwise clean, and an empty
cleaned string becomes `None`. -/
def extract_salary (salary : Option Str) : Option Str :=
  match salary with
  | none => none
  | some s =>
    if s.isEmpty then none
    else
      let c := clean_text s
      if c.isEmpty then none else some c

/-- A Python value passed as the `tags` argument of `extract_tags`: a list
of strings, a string, or a value of any other type. -/
inductive TagsVal where
  | ofList (l : List Str)
  | ofStr (s : Str)
  | other
deriving DecidableEq, Repr

/-- Python truthiness of a `tags` value (empty list and empty string are
falsy; `other` models a non-list non-string value, e.g. `None`). -/
def tagsTruthy : TagsVal → Bool
  | .ofList l => !l.isEmpty
  | .ofStr s => !s.isEmpty
  | .other => false

/-- Python `a or b` on `tags` values. -/
def pyOrTags (a b : TagsVal) : TagsVal := if tagsTruthy a then a else b

/-- `extract_tags`: a list keeps its truthy entries cleaned, first 10; a
string is split on `','` and treated the same; anything else gives `[]`. -/
def extract_tags : TagsVal → List Str
  | .ofList l => ((l.filter fun t => !t.isEmpty).map clean_text).take 10
  | .ofStr s =>
    (((pySplitChar ',' s).filter fun t => !t.isEmpty).map clean_text).take 10
  | .other => []

/-- A raw job dictionary, with the keys `normalize_job_data` reads.  A
`none` field models a missing key.  The clock-dependent
`posted_at`/`publication_date` fields are omitted (they only feed the
omitted datetime outputs). -/
structure RawJob where
  title : Option Str := none
  job_title : Option Str := none
  position : Option Str := none
  company : Option Str := none
  company_name : Option Str := none
  employer : Option Str := none
  location : Option Str := none
  job_location : Option Str := none
  description : Option Str := none
  job_description : Option Str := none
  url : Option Str := none
  link : Option Str := none
  apply_url : Option Str := none
  tags : Option TagsVal := none
  skills : Option TagsVal := none
  salary : Option Str := none
  salary_range : Option Str := none
deriving DecidableEq, Repr

/-- A normalized job record (the dictionary returned by
`normalize_job_data`, minus the datetime fields `posted_at`, `fetched_at`,
`expires_at`). -/
structure NormJob where
  title : Str
  company : Str
  location : Str
  type : Str
  category : Str
  salary : Option Str
  description : Str
  url : Str
  source : Str
  tags : List Str
  country : Str
deriving DecidableEq, Repr

/-- Python `raw.get('tags') or raw.get('skills') or []` (a missing key is
`None`, which is falsy). -/
def tagsArg (a b : Option TagsVal) : TagsVal :=
  pyOrTags (a.getD .other) (pyOrTags (b.getD .other) (.ofList []))

/-- `normalize_job_data(raw_data, source, default_country)`. -/
def normalize_job_data (raw : RawJob) (source : Str)
    (default_country : Str := str "global") : NormJob :=
  let title := pyOrStr raw.title
    (pyOrStr raw.job_title (raw.position.getD (str "Untitled")))
  let company := pyOrStr raw.company
    (pyOrStr raw.company_name (raw.employer.getD (str "Unknown")))
  let location := pyOrStr raw.location
    (pyOrStr raw.job_location (str "Not specified"))
  let description := pyOrStr raw.description (pyOrStr raw.job_description [])
  let url := pyOrStr raw.url (pyOrStr raw.link (raw.apply_url.getD []))
  { title := clean_text title
    company := clean_text company
    location := clean_text location
    type := determine_job_type title description location
    category := determine_job_category title description source
    salary := extract_salary (pyOrOpt raw.salary raw.salary_range)
    description := clean_text (description.take 500)
    url := url
    source := source
    tags := extract_tags (tagsArg raw.tags raw.skills)
    country := default_country }

/-- The raw-category branch of `determine_course_category`: the chain of
early returns inside `if raw_category:`, as an `Option` (`none` when no
pattern matches, in which case control falls through to the text scan). -/
def rawCategoryMatch (rc : Str) : Option Str :=
  if pyIn (str "python") rc then some (str "python")
  else if pyIn (str "security") rc || pyIn (str "cyber") rc then
    some (str "cybersecurity")
  else if pyIn (str "ai") rc || pyIn (str "machine learning") rc then
    some (str "ai")
  else if pyIn (str "web") rc then some (str "web_development")
  else none

/-- The `elif` chain of `determine_course_category` that scans
`f"{title} {description}".lower()`. -/
def courseTextScan (text : Str) : Str :=
  if pyIn (str "python") text then str "python"
  else if pyIn (str "security") text || pyIn (str "hacking") text ||
      pyIn (str "cyber") text then str "cybersecurity"
  else if pyIn (str "ai") text || pyIn (str "machine learning") text ||
      pyIn (str "ml") text then str "ai"
  else if pyIn (str "web development") text || pyIn (str "html") text ||
      pyIn (str "css") text || pyIn (str "javascript") text then
    str "web_development"
  else if pyIn (str "cloud") text || pyIn (str "aws") text ||
      pyIn (str "azure") text || pyIn (str "devops") text then str "cloud"
  else if pyIn (str "data science") text || pyIn (str "data analysis") text
    then str "data_science"
  else if pyIn (str "mobile") text || pyIn (str "android") text ||
      pyIn (str "ios") text || pyIn (str "flutter") text then str "mobile"
  else str "general"

/-- `determine_course_category(title, description, raw_category)`. -/
def determine_course_category (title description : Str)
    (raw_category : Option Str) : Str :=
  let text := pyLower (title ++ ' ' :: description)
  let fromRaw : Option Str :=
    match raw_category with
    | some rc => if rc.isEmpty then none else rawCategoryMatch (pyLower rc)
    | none => none
  match fromRaw with
  | some c => c
  | none => courseTextScan text

/-! ## `app/fetchers/utils.py` — retry behaviour

The network is an oracle `att : Nat → Attempt β` giving the outcome of the
`n`-th HTTP attempt for the call. -/

/-- Outcome of one HTTP attempt: a timeout (or other request exception), a
non-200 status, a 200 whose body fails to decode, or a decoded body. -/
inductive Attempt (β : Type) where
  | timeout
  | httpError (status : Nat)
  | decodeFail
  | ok (body : β)
deriving DecidableEq, Repr

/-- Did the attempt produce a decoded 200 body? -/
def Attempt.isOk {β : Type} : Attempt β → Bool
  | .ok _ => true
  | _ => false

/-- The `for attempt in range(retries)` loop of `fetch_json`, over the list
of remaining attempt indices.  Every non-`ok` outcome (timeout, non-200,
exception while decoding the body) falls through to the backoff sleep of
`2 ** attempt` seconds — skipped after the final attempt — and the next
iteration; the sleeps performed are returned alongside the result. -/
def fetchJsonGo {β : Type} (att : Nat → Attempt β) (retries : Nat) :
    List Nat → Option β × List Nat
  | [] => (none, [])
  | a :: rest =>
    match att a with
    | .ok b => (some b, [])
    | _ =>
      let r := fetchJsonGo att retries rest
      (r.1, if a < retries - 1 then 2 ^ a :: r.2 else r.2)

/-- `fetch_json(url, ..., retries=3)`: result plus backoff sleeps. -/
def fetch_json {β : Type} (att : Nat → Attempt β) (retries : Nat := 3) :
    Option β × List Nat :=
  fetchJsonGo att retries (List.range retries)

/-- `fetch_rss`: a single attempt; a 200 body parses into a (possibly
empty) entry list, and only a non-empty entry list is returned.  A
malformed feed body parses to no entries (`feedparser` does not raise). -/
def fetch_rss {γ : Type} (att : Nat → Attempt (List γ)) : Option (List γ) :=
  match att 0 with
  | .ok entries => if entries.isEmpty then none else some entries
  | _ => none

/-- `fetch_html`: a single attempt; a 200 body is returned as-is. -/
def fetch_html (att : Nat → Attempt Str) : Option Str :=
  match att 0 with
  | .ok body => some body
  | _ => none

/-! ## `fetch_all_jobs` / `fetch_all_courses` — gather orchestration -/

/-- The result-combining loop of `fetch_all_jobs` and `fetch_all_courses`:
`asyncio.gather(..., return_exceptions=True)` yields, per configured
fetcher in source order, either its record list or the exception it
raised; lists are concatenated in order and exceptions are logged and
skipped. -/
def gatherResults {ε α : Type} (results : List (Except ε (List α))) :
    List α :=
  results.foldl
    (fun acc r =>
      match r with
      | .ok l => acc ++ l
      | .error _ => acc)
    []

/-- Specification view of the gather: the record lists of the successful
fetchers, in source order. -/
def okLists {ε α : Type} (results : List (Except ε (List α))) :
    List (List α) :=
  results.filterMap fun r =>
    match r with
    | .ok l => some l
    | .error _ => none

/-! ## `app/tasks/fetch_jobs.py` — the store-writer loop

The MongoDB collection is an association list of records in insertion
order.  `update_one({"hash": h}, {"$set": doc}, upsert=True)` replaces the
first record whose `hash` equals `h` (reporting `modified_count > 0`
exactly when the stored record changed) or, with no match, appends the new
record (reporting an `upserted_id`). -/

/-- One `update_one` call: returns the new store, whether a document was
upserted (inserted), and whether an existing document was modified. -/
def mongoUpdateOne {α : Type} [DecidableEq α] :
    List (Item α) → Item α → List (Item α) × Bool × Bool
  | [], j => ([j], true, false)
  | d :: rest, j =>
    if d.hash? = j.hash? then (j :: rest, false, decide (d ≠ j))
    else
      let r := mongoUpdateOne rest j
      (d :: r.1, r.2.1, r.2.2)

/-- The first stored record whose `hash` field equals `h` (the document
`find_one({"hash": h})` would return). -/
def findByHash {α : Type} (s : List (Item α)) (h : Option Str) :
    Option (Item α) :=
  s.find? fun d => decide (d.hash? = h)

/-- The outcome of the store-writer loop: final store and the
`inserted_count` / `updated_count` it reports. -/
structure StoreResult (α : Type) where
  store : List (Item α)
  inserted : Nat
  updated : Nat
deriving DecidableEq, Repr

/-- The `for job in unique_jobs:` loop of `run_job_fetcher` (and the
identical loop of `run_course_fetcher`): upsert each record keyed by its
hash, counting `inserted` when an id was upserted and otherwise `updated`
when `modified_count > 0`. -/
def runStoreLoop {α : Type} [DecidableEq α] :
    List (Item α) → List (Item α) → StoreResult α
  | [], s => ⟨s, 0, 0⟩
  | j :: rest, s =>
    let u := mongoUpdateOne s j
    let r := runStoreLoop rest u.1
    ⟨r.store, (if u.2.1 then 1 else 0) + r.inserted,
      (if !u.2.1 && u.2.2 then 1 else 0) + r.updated⟩

/-- The post-fetch body of `run_job_fetcher`: an empty fetch returns early;
otherwise the batch is deduplicated and written to the store. -/
def run_job_fetcher_store {α : Type} [DecidableEq α] (jobs : List (Item α))
    (store : List (Item α)) : StoreResult α :=
  if jobs.isEmpty then ⟨store, 0, 0⟩
  else runStoreLoop (deduplicate_list jobs) store

/-- The per-record step of the source fetchers (e.g. `fetch_remotive`):
attach `normalized['hash'] = generate_job_hash(title, company, url)`. -/
def attachJobHash (j : NormJob) : Item NormJob :=
  ⟨some (generate_job_hash j.title j.company j.url), j⟩

/-! ## `app/scheduler.py` — one tick of `BackgroundScheduler.run` -/

/-- A scheduled task: its interval in seconds and the timestamp of its last
successful run (`None` before the first success).  Timestamps are integers
(the code uses `datetime.utcnow().timestamp()`, which only ever moves
forward; nothing below depends on sub-second resolution).  The task bodies
themselves are effectful and enter the tick as a success oracle. -/
structure STask where
  interval : Nat
  lastRun : Option Int
deriving DecidableEq, Repr

/-- The `should_run` test of the scheduler loop. -/
def shouldRun (now : Int) (t : STask) : Bool :=
  match t.lastRun with
  | none => true
  | some lr => decide (now - lr ≥ (t.interval : Int))

/-- One pass of `for task in self.tasks:` at time `now`.  `ok i` tells
whether the `i`-th task's coroutine returns normally (`true`) or raises
(`false`); a raise is caught and logged, leaving `last_run` untouched,
and the loop continues with the next task. -/
def runTick (ok : Nat → Bool) (now : Int) : List STask → Nat → List STask
  | [], _ => []
  | t :: rest, i =>
    let t' :=
      if shouldRun now t then
        if ok i then { t with lastRun := some now } else t
      else t
    t' :: runTick ok now rest (i + 1)

/-! ## Concrete data used by the witnesses and counterexamples -/

/-- A batch with a repeated hash under different payloads (the spec's
"same computed hash, different description text" scenario). -/
def demoDedupBatch : List (Item Str) :=
  [⟨some (str "a1"), str "first description"⟩,
   ⟨some (str "b2"), str "unrelated"⟩,
   ⟨some (str "a1"), str "different description"⟩]

/-- A record that never received a hash. -/
def demoHashless : Item Str := ⟨none, str "no hash"⟩

/-- A store record for the idempotent-upsert scenario. -/
def demoStoreRec : Item Str := ⟨some (str "h1"), str "doc1"⟩

/-- Attempt oracle: first attempt returns HTTP 500, the second a body. -/
def attRetryDemo : Nat → Attempt Str :=
  fun n => if n = 0 then .httpError 500 else .ok (str "body")

/-- Attempt oracle for the RSS helper: HTTP 500 then a one-entry feed. -/
def attRssDemo : Nat → Attempt (List Nat) :=
  fun n => if n = 0 then .httpError 500 else .ok [7]

/-- Attempt oracle: the first body fails to decode, the second decodes. -/
def attDecodeDemo : Nat → Attempt Str :=
  fun n => if n = 0 then .decodeFail else .ok (str "body")

/-- Attempt oracle: every attempt times out. -/
def attTimeoutDemo : Nat → Attempt Str := fun _ => .timeout

/-- Attempt oracle: an immediately successful RSS fetch. -/
def attRssOkDemo : Nat → Attempt (List Nat) := fun _ => .ok [7]

/-- A raw job record with every key missing. -/
def emptyRawJob : RawJob := {}

/-- A raw job record carrying a title but no URL under any fallback key. -/
def titledRawJob : RawJob := { title := some (str "Engineer") }

/-- Two scheduler tasks: a 1-hour-interval task that has never run and a
1-hour-interval task last run at time 0. -/
def demoTasks : List STask := [⟨3600, none⟩, ⟨3600, some 0⟩]

/-- Task-success oracle for the demo tick: task 0 raises, task 1 returns. -/
def demoTaskOk : Nat → Bool := fun i => decide (i ≠ 0)

/-! ## Helper lemmas: `deduplicate_list` -/

/-- The accumulator of `dedupLoop` is only appended to. -/
theorem dedupLoop_acc {α : Type} (l : List (Item α)) :
    ∀ (seen : List Str) (acc : List (Item α)),
      (dedupLoop l seen acc).2 = acc ++ (dedupLoop l seen []).2 := by
  induction l with
  | nil => intro seen acc; simp [dedupLoop]
  | cons it rest ih =>
    intro seen acc
    match h : it.hash? with
    | some h' =>
      by_cases hk : (!h'.isEmpty && !seen.contains h') = true
      · simp only [dedupLoop, h, hk, if_pos]
        rw [ih (h' :: seen) (acc ++ [it]), ih (h' :: seen) ([] ++ [it])]
        simp
      · simp only [dedupLoop, h]
        rw [if_neg hk, if_neg hk]
        exact ih seen acc
    | none => simp only [dedupLoop, h]; exact ih seen acc

/-- Whatever `seen` is, the kept items form a sublist of the input. -/
theorem dedupLoop_sublist {α : Type} (l : List (Item α)) :
    ∀ seen : List Str, (dedupLoop l seen []).2.Sublist l := by
  induction l with
  | nil => intro seen; simp [dedupLoop]
  | cons it rest ih =>
    intro seen
    match h : it.hash? with
    | some h' =>
      by_cases hk : (!h'.isEmpty && !seen.contains h') = true
      · simp only [dedupLoop, h, hk, if_pos]
        rw [dedupLoop_acc]
        simpa using List.Sublist.cons₂ it (ih (h' :: seen))
      · simp only [dedupLoop, h]
        rw [if_neg hk]
        exact (ih seen).cons it
    | none =>
      simp only [dedupLoop, h]
      exact (ih seen).cons it

/-- Every kept item has a truthy hash that was not yet seen. -/
theorem dedupLoop_mem_hash {α : Type} (l : List (Item α)) :
    ∀ (seen : List Str) (r : Item α), r ∈ (dedupLoop l seen []).2 →
      ∃ h, r.hash? = some h ∧ h.isEmpty = false ∧ h ∉ seen := by
  induction l with
  | nil => intro seen r hr; simp [dedupLoop] at hr
  | cons it rest ih =>
    intro seen r hr
    match h : it.hash? with
    | some h' =>
      by_cases hk : (!h'.isEmpty && !seen.contains h') = true
      · simp only [dedupLoop, h, hk, if_pos] at hr
        rw [dedupLoop_acc] at hr
        simp only [List.nil_append, List.singleton_append, List.mem_cons] at hr
        rcases hr with hr | hr
        · subst hr
          simp only [Bool.and_eq_true, Bool.not_eq_true'] at hk
          refine ⟨h', h, hk.1, ?_⟩
          have := hk.2
          simpa using this
        · rcases ih (h' :: seen) r hr with ⟨g, hg1, hg2, hg3⟩
          exact ⟨g, hg1, hg2, fun hmem => hg3 (List.mem_cons_of_mem _ hmem)⟩
      · simp only [dedupLoop, h] at hr
        rw [if_neg hk] at hr
        exact ih seen r hr
    | none =>
      simp only [dedupLoop, h] at hr
      exact ih seen r hr

/-- The kept items have pairwise distinct `hash` values. -/
theorem dedupLoop_nodup {α : Type} (l : List (Item α)) :
    ∀ seen : List Str, ((dedupLoop l seen []).2.map Item.hash?).Nodup := by
  induction l with
  | nil => intro seen; simp [dedupLoop]
  | cons it rest ih =>
    intro seen
    match h : it.hash? with
    | some h' =>
      by_cases hk : (!h'.isEmpty && !seen.contains h') = true
      · simp only [dedupLoop, h, hk, if_pos]
        rw [dedupLoop_acc]
        simp only [List.nil_append, List.singleton_append, List.map_cons,
          List.nodup_cons]
        refine ⟨?_, ih (h' :: seen)⟩
        intro hmem
        rcases List.mem_map.mp hmem with ⟨r, hr, hhr⟩
        rcases dedupLoop_mem_hash rest (h' :: seen) r hr with ⟨g, hg1, _, hg3⟩
        rw [hg1] at hhr
        rw [h] at hhr
        have : g = h' := by injection hhr
        exact hg3 (this ▸ List.mem_cons_self g seen)
      · simp only [dedupLoop, h]
        rw [if_neg hk]
        exact ih seen
    | none =>
      simp only [dedupLoop, h]
      exact ih seen

/-- Every truthy hash in the input is represented among the kept items,
unless it was already in `seen`. -/
theorem dedupLoop_covers {α : Type} (l : List (Item α)) :
    ∀ (seen : List Str) (it : Item α), it ∈ l →
      ∀ h, it.hash? = some h → h.isEmpty = false →
        h ∈ seen ∨ ∃ r ∈ (dedupLoop l seen []).2, r.hash? = some h := by
  induction l with
  | nil => intro seen it hit; simp at hit
  | cons j rest ih =>
    intro seen it hit h hh hne
    match hj : j.hash? with
    | some h' =>
      by_cases hk : (!h'.isEmpty && !seen.contains h') = true
      · simp only [dedupLoop, hj]
        rw [if_pos hk, dedupLoop_acc]
        rcases List.mem_cons.mp hit with rfl | hmem
        · right
          refine ⟨it, by simp, hh⟩
        · rcases ih (h' :: seen) it hmem h hh hne with hin | ⟨r, hr, hrh⟩
          · rcases List.mem_cons.mp hin with rfl | hs
            · right
              exact ⟨j, by simp, by rw [hj]⟩
            · left; exact hs
          · right
            exact ⟨r, by simp [hr], hrh⟩
      · simp only [dedupLoop, hj]
        rw [if_neg hk]
        rcases List.mem_cons.mp hit with rfl | hmem
        · rw [hj] at hh
          injection hh with hh'
          subst hh'
          simp only [Bool.and_eq_true, Bool.not_eq_true', not_and_or] at hk
          rcases hk with hk | hk
          · rw [hne] at hk
            simp at hk
          · left
            simp only [Bool.not_eq_true', Bool.not_eq_false] at hk
            simpa using hk
        · exact ih seen it hmem h hh hne
    | none =>
      simp only [dedupLoop, hj]
      rcases List.mem_cons.mp hit with rfl | hmem
      · rw [hj] at hh; cases hh
      · exact ih seen it hmem h hh hne

/-- Every kept item is the first item of the input carrying its hash. -/
theorem dedupLoop_find_first {α : Type} (l : List (Item α)) :
    ∀ (seen : List Str) (r : Item α), r ∈ (dedupLoop l seen []).2 →
      l.find? (fun it => decide (it.hash? = r.hash?)) = some r := by
  induction l with
  | nil => intro seen r hr; simp [dedupLoop] at hr
  | cons j rest ih =>
    intro seen r hr
    match hj : j.hash? with
    | some h' =>
      by_cases hk : (!h'.isEmpty && !seen.contains h') = true
      · simp only [dedupLoop, hj] at hr
        rw [if_pos hk, dedupLoop_acc] at hr
        simp only [List.nil_append, List.singleton_append, List.mem_cons] at hr
        rcases hr with rfl | hr
        · exact List.find?_cons_of_pos _ (by simp)
        · rcases dedupLoop_mem_hash rest (h' :: seen) r hr with ⟨g, hg1, _, hg3⟩
          have hgne : g ≠ h' := fun hgh => hg3 (hgh ▸ List.mem_cons_self g seen)
          rw [List.find?_cons_of_neg, ih (h' :: seen) r hr]
          simp only [hj, hg1, decide_eq_true_eq]
          intro hcon
          exact hgne (by injection hcon with hcon'; exact hcon'.symm)
      · simp only [dedupLoop, hj] at hr
        rw [if_neg hk] at hr
        rcases dedupLoop_mem_hash rest seen r hr with ⟨g, hg1, hg2, hg3⟩
        have hgne : g ≠ h' := by
          intro hgh
          cases hie : List.isEmpty h' with
          | true =>
            rw [hgh] at hg2
            rw [hg2] at hie
            simp at hie
          | false =>
            cases hc : seen.contains h' with
            | true => exact hg3 (by rw [hgh]; simpa using hc)
            | false =>
              refine hk ?_
              simp only [hie, Bool.not_false, Bool.true_and]
              simpa using hc
        rw [List.find?_cons_of_neg, ih seen r hr]
        simp only [hj, hg1, decide_eq_true_eq]
        intro hcon
        exact hgne (by injection hcon with hcon'; exact hcon'.symm)
    | none =>
      simp only [dedupLoop, hj] at hr
      rcases dedupLoop_mem_hash rest seen r hr with ⟨g, hg1, _, _⟩
      rw [List.find?_cons_of_neg, ih seen r hr]
      simp [hj, hg1]

/-! ## Helper lemmas: the store-writer loop -/

/-- Upserting a record that is already stored (as the first match for its
hash) changes nothing and reports neither an insert nor a modification. -/
theorem mongoUpdateOne_self {α : Type} [DecidableEq α] (s : List (Item α))
    (j : Item α) (hfind : findByHash s j.hash? = some j) :
    mongoUpdateOne s j = (s, false, false) := by
  induction s with
  | nil => simp [findByHash] at hfind
  | cons d rest ih =>
    by_cases hd : d.hash? = j.hash?
    · have hdj : d = j := by
        simp only [findByHash] at hfind
        rw [List.find?_cons_of_pos _ (by simp [hd])] at hfind
        injection hfind
      subst hdj
      simp [mongoUpdateOne, hd]
    · simp only [findByHash] at hfind
      rw [List.find?_cons_of_neg _ (by simp [hd])] at hfind
      simp [mongoUpdateOne, hd, ih hfind]

/-- After upserting `j`, the first match for `j`'s hash is `j` itself. -/
theorem mongoUpdateOne_finds_self {α : Type} [DecidableEq α]
    (s : List (Item α)) (j : Item α) :
    findByHash (mongoUpdateOne s j).1 j.hash? = some j := by
  induction s with
  | nil => simp [mongoUpdateOne, findByHash]
  | cons d rest ih =>
    by_cases hd : d.hash? = j.hash?
    · simp only [mongoUpdateOne, if_pos hd, findByHash]
      rw [List.find?_cons_of_pos _ (by simp)]
    · simp only [mongoUpdateOne, if_neg hd, findByHash]
      rw [List.find?_cons_of_neg _ (by simp [hd])]
      exact ih

/-- Upserting a record with a different hash does not disturb the first
match for `h`. -/
theorem mongoUpdateOne_preserves {α : Type} [DecidableEq α]
    (s : List (Item α)) (j : Item α) (h : Option Str) (hne : j.hash? ≠ h) :
    findByHash (mongoUpdateOne s j).1 h = findByHash s h := by
  induction s with
  | nil =>
    simp only [mongoUpdateOne, findByHash]
    rw [List.find?_cons_of_neg _ (by simp [hne])]
  | cons d rest ih =>
    by_cases hd : d.hash? = j.hash?
    · simp only [mongoUpdateOne, if_pos hd, findByHash]
      rw [List.find?_cons_of_neg _ (by simp [hne]),
        List.find?_cons_of_neg _ (by simp [hd, hne])]
    · simp only [mongoUpdateOne, if_neg hd, findByHash]
      by_cases hdh : d.hash? = h
      · rw [List.find?_cons_of_pos _ (by simp [hdh]),
          List.find?_cons_of_pos _ (by simp [hdh])]
      · rw [List.find?_cons_of_neg _ (by simp [hdh]),
          List.find?_cons_of_neg _ (by simp [hdh])]
        exact ih

/-- Writing a batch that avoids hash `h` does not disturb the first match
for `h`. -/
theorem runStoreLoop_preserves {α : Type} [DecidableEq α]
    (batch : List (Item α)) :
    ∀ (s : List (Item α)) (h : Option Str), (∀ j ∈ batch, j.hash? ≠ h) →
      findByHash (runStoreLoop batch s).store h = findByHash s h := by
  induction batch with
  | nil => intro s h _; simp [runStoreLoop]
  | cons j rest ih =>
    intro s h hb
    simp only [runStoreLoop]
    rw [ih _ h fun j' hj' => hb j' (List.mem_cons_of_mem _ hj')]
    exact mongoUpdateOne_preserves s j h (hb j (List.mem_cons_self _ _))

/-- After writing a batch with pairwise-distinct hashes, every batch record
is stored verbatim as the first match for its hash. -/
theorem runStoreLoop_establishes {α : Type} [DecidableEq α]
    (batch : List (Item α)) :
    ∀ s : List (Item α), (batch.map Item.hash?).Nodup →
      ∀ j ∈ batch, findByHash (runStoreLoop batch s).store j.hash? = some j := by
  induction batch with
  | nil => intro s _ j hj; simp at hj
  | cons j rest ih =>
    intro s hnd j' hj'
    simp only [List.map_cons, List.nodup_cons] at hnd
    rcases List.mem_cons.mp hj' with rfl | hmem
    · simp only [runStoreLoop]
      rw [runStoreLoop_preserves rest _ j'.hash?
        fun j'' hj'' heq => hnd.1 (heq ▸ List.mem_map_of_mem Item.hash? hj'')]
      exact mongoUpdateOne_finds_self s j'
    · simp only [runStoreLoop]
      exact ih _ hnd.2 j' hmem

/-- A batch whose records are all already stored verbatim writes nothing:
no inserts, no updates, store unchanged. -/
theorem runStoreLoop_stable {α : Type} [DecidableEq α]
    (batch : List (Item α)) (s : List (Item α))
    (hall : ∀ j ∈ batch, findByHash s j.hash? = some j) :
    runStoreLoop batch s = ⟨s, 0, 0⟩ := by
  induction batch with
  | nil => simp [runStoreLoop]
  | cons j rest ih =>
    have hu := mongoUpdateOne_self s j (hall j (List.mem_cons_self _ _))
    simp only [runStoreLoop, hu]
    rw [ih fun j' hj' => hall j' (List.mem_cons_of_mem _ hj')]
    simp

/-! ## Helper lemmas: gather -/

/-- The gather fold only ever appends to its accumulator. -/
theorem gatherResults_acc {ε α : Type} (results : List (Except ε (List α))) :
    ∀ acc : List α,
      results.foldl
        (fun acc r =>
          match r with
          | .ok l => acc ++ l
          | .error _ => acc)
        acc = acc ++ gatherResults results := by
  induction results with
  | nil => intro acc; simp [gatherResults]
  | cons r rest ih =>
    intro acc
    cases r with
    | ok l =>
      simp only [gatherResults, List.foldl_cons]
      rw [ih (acc ++ l), ih ([] ++ l)]
      simp
    | error e =>
      simp only [gatherResults, List.foldl_cons]
      rw [ih acc, ih []]
      simp

/-! ## Claim theorems -/

/-- C1 (counterexample): `generate_job_hash` does *not* lower-case the URL,
so two calls whose inputs agree after lower-casing and trimming the title,
the company, and the URL can still produce different hashes. -/
theorem job_hash_url_case_counterexample :
    pyStrip (pyLower (str " Dev ")) = pyStrip (pyLower (str "dev")) ∧
    pyStrip (pyLower (str "ACME")) = pyStrip (pyLower (str "acme")) ∧
    pyStrip (pyLower (str "HTTP://X")) = pyStrip (pyLower (str "http://x")) ∧
    generate_job_hash (str " Dev ") (str "ACME") (str "HTTP://X") ≠
      generate_job_hash (str "dev") (str "acme") (str "http://x") := by
  refine ⟨by decide, by decide, by decide, by decide⟩

/-- C1 (amended): the job hash is a pure function of the lower-cased,
trimmed title and company together with the *trimmed but case-sensitive*
URL; the course hash is a pure function of the lower-cased, trimmed title
and platform alone (it takes no URL).  In particular identical inputs give
identical hashes. -/
theorem hash_normalization_amended (t₁ c₁ u₁ t₂ c₂ u₂ : Str)
    (ht : pyStrip (pyLower t₁) = pyStrip (pyLower t₂))
    (hc : pyStrip (pyLower c₁) = pyStrip (pyLower c₂))
    (hu : pyStrip u₁ = pyStrip u₂) :
    generate_job_hash t₁ c₁ u₁ = generate_job_hash t₂ c₂ u₂ ∧
      ∀ ct₁ p₁ ct₂ p₂ : Str,
        pyStrip (pyLower ct₁) = pyStrip (pyLower ct₂) →
        pyStrip (pyLower p₁) = pyStrip (pyLower p₂) →
        generate_course_hash ct₁ p₁ = generate_course_hash ct₂ p₂ := by
  constructor
  · unfold generate_job_hash
    rw [ht, hc, hu]
  · intro ct₁ p₁ ct₂ p₂ h₁ h₂
    unfold generate_course_hash
    rw [h₁, h₂]

/-- C1 (witness): the amended determinism theorem applied to concrete
inputs that differ only in case and surrounding whitespace of the
normalized fields. -/
theorem hash_normalization_amended_witness :
    pyStrip (pyLower (str "Dev ")) = pyStrip (pyLower (str " dev")) ∧
    generate_job_hash (str "Dev ") (str "Acme") (str "u") =
      generate_job_hash (str " dev") (str "acme") (str "u") ∧
    generate_course_hash (str "Lean ") (str "Udemy") =
      generate_course_hash (str "lean") (str "udemy") := by
  refine ⟨by decide, ?_, ?_⟩
  · exact (hash_normalization_amended (str "Dev ") (str "Acme") (str "u")
      (str " dev") (str "acme") (str "u")
      (by decide) (by decide) (by decide)).1
  · exact (hash_normalization_amended [] [] [] [] [] []
      rfl rfl rfl).2 (str "Lean ") (str "Udemy") (str "lean") (str "udemy")
      (by decide) (by decide)

/-- C5: on a batch whose records all carry truthy hashes,
`deduplicate_list` returns a sublist of the batch (order preserved) whose
hash values are pairwise distinct, in which every hash of the batch is
represented, and each kept record is the *first* record of the batch with
its hash — later duplicates are removed whatever their other fields. -/
theorem deduplicate_list_keeps_first_occurrences {α : Type}
    (items : List (Item α))
    (hall : ∀ it ∈ items, truthyHash it = true) :
    (deduplicate_list items).Sublist items ∧
    ((deduplicate_list items).map Item.hash?).Nodup ∧
    (∀ it ∈ items, ∃ r ∈ deduplicate_list items, r.hash? = it.hash?) ∧
    (∀ r ∈ deduplicate_list items,
      items.find? (fun it => decide (it.hash? = r.hash?)) = some r) := by
  refine ⟨dedupLoop_sublist items [], dedupLoop_nodup items [], ?_, ?_⟩
  · intro it hit
    have ht := hall it hit
    obtain ⟨h, hh, hne⟩ : ∃ h, it.hash? = some h ∧ h.isEmpty = false := by
      cases hsh : it.hash? with
      | some h =>
        refine ⟨h, rfl, ?_⟩
        simpa [truthyHash, hsh] using ht
      | none => simp [truthyHash, hsh] at ht
    rcases dedupLoop_covers items [] it hit h hh hne with hfalse | ⟨r, hr, hrh⟩
    · simp at hfalse
    · exact ⟨r, hr, by rw [hrh, hh]⟩
  · intro r hr
    exact dedupLoop_find_first items [] r hr

/-- C5 (witness): the dedup theorem applied to a concrete batch holding a
repeated hash with different payloads. -/
theorem deduplicate_list_keeps_first_occurrences_witness :
    (∀ it ∈ demoDedupBatch, truthyHash it = true) ∧
    ∀ r ∈ deduplicate_list demoDedupBatch,
      demoDedupBatch.find? (fun it => decide (it.hash? = r.hash?)) = some r :=
  ⟨by decide,
   (deduplicate_list_keeps_first_occurrences demoDedupBatch (by decide)).2.2.2⟩

/-- C9: an item whose `hash` value is missing or empty (falsy) never
appears in the output of `deduplicate_list`, whatever the batch. -/
theorem deduplicate_list_discards_falsy_hash {α : Type}
    (items : List (Item α)) (it : Item α) (hf : truthyHash it = false) :
    it ∉ deduplicate_list items := by
  intro hmem
  rcases dedupLoop_mem_hash items [] it hmem with ⟨h, hh, hne, _⟩
  simp only [truthyHash, hh, hne] at hf
  simp at hf

/-- C9 (witness): a hashless record vanishes even as the only item of the
batch. -/
theorem deduplicate_list_discards_falsy_hash_witness :
    truthyHash demoHashless = false ∧
    demoHashless ∉ deduplicate_list [demoHashless] :=
  ⟨by decide,
   deduplicate_list_discards_falsy_hash [demoHashless] demoHashless (by decide)⟩

/-- C2 (counterexample): replaying the very same batch does *not* count the
records as updated.  MongoDB's `update_one` reports `modified_count = 0`
when `$set` leaves the document unchanged, and the writer counts `updated`
only when `modified_count > 0`, so the second identical run reports
`inserted = 0` *and* `updated = 0` — not "every record updated". -/
theorem second_run_updated_count_counterexample :
    (runStoreLoop [demoStoreRec]
        (runStoreLoop [demoStoreRec] ([] : List (Item Str))).store).inserted
      = 0 ∧
    (runStoreLoop [demoStoreRec]
        (runStoreLoop [demoStoreRec] ([] : List (Item Str))).store).updated ≠
      [demoStoreRec].length := by
  refine ⟨by decide, by decide⟩

/-- C2 (amended): writing the same deduplicated batch (pairwise-distinct
hashes) a second time is idempotent — the second run reports `inserted = 0`
and `updated = 0`, and leaves the store exactly unchanged (in particular
the record count is unchanged). -/
theorem second_run_upsert_amended {α : Type} [DecidableEq α]
    (batch : List (Item α)) (s₀ : List (Item α))
    (hnd : (batch.map Item.hash?).Nodup) :
    runStoreLoop batch (runStoreLoop batch s₀).store =
      ⟨(runStoreLoop batch s₀).store, 0, 0⟩ :=
  runStoreLoop_stable batch _ (runStoreLoop_establishes batch s₀ hnd)

/-- C2 (witness): the amended idempotence theorem applied to a concrete
one-record batch over an initially empty store. -/
theorem second_run_upsert_amended_witness :
    ([demoStoreRec].map Item.hash?).Nodup ∧
    runStoreLoop [demoStoreRec]
        (runStoreLoop [demoStoreRec] ([] : List (Item Str))).store =
      ⟨(runStoreLoop [demoStoreRec] ([] : List (Item Str))).store, 0, 0⟩ :=
  ⟨by decide, second_run_upsert_amended [demoStoreRec] [] (by decide)⟩

/-- C3: whatever each configured fetcher produces — a record list or a
raised exception — the gather returns exactly the concatenation of the
successful fetchers' lists in the fixed source order, and (being a total
function of the outcomes) propagates no exception. -/
theorem fetch_all_concatenates_successes {ε α : Type}
    (results : List (Except ε (List α))) :
    gatherResults results = (okLists results).flatten := by
  induction results with
  | nil => simp [gatherResults, okLists]
  | cons r rest ih =>
    cases r with
    | ok l =>
      simp only [gatherResults, List.foldl_cons] at ih ⊢
      rw [gatherResults_acc rest ([] ++ l)]
      simp only [okLists, List.filterMap_cons] at ih ⊢
      rw [List.flatten_cons]
      simp only [List.nil_append]
      rw [← ih]
      simp [gatherResults]
    | error e =>
      simp only [gatherResults, List.foldl_cons] at ih ⊢
      simpa [okLists] using ih

/-- C10: `extract_tags` yields at most 10 tags for every input: a list is
filtered to its truthy entries, of which the first 10 are cleaned; a
string is split on commas and treated the same way; any other value gives
the empty list. -/
theorem extract_tags_limit_spec :
    (∀ v, (extract_tags v).length ≤ 10) ∧
    (∀ l, extract_tags (.ofList l) =
      ((l.filter fun t => !t.isEmpty).take 10).map clean_text) ∧
    (∀ s, extract_tags (.ofStr s) =
      (((pySplitChar ',' s).filter fun t => !t.isEmpty).take 10).map
        clean_text) ∧
    extract_tags .other = [] := by
  refine ⟨?_, ?_, ?_, rfl⟩
  · intro v
    cases v with
    | ofList l =>
      simp only [extract_tags, List.length_take]
      exact Nat.min_le_left _ _
    | ofStr s =>
      simp only [extract_tags, List.length_take]
      exact Nat.min_le_left _ _
    | other => simp [extract_tags]
  · intro l
    simp only [extract_tags]
    exact (List.map_take clean_text _ 10).symm
  · intro s
    simp only [extract_tags]
    exact (List.map_take clean_text _ 10).symm

/-- C8 (counterexample): the raw-category branch knows only four patterns
(python, security/cyber, ai/machine-learning, web).  An explicit raw
category of `"cloud"` is *not* matched and the text scan of the empty
title+description returns `general`, not `cloud`; and with raw category
`"devops"` the text scan of the title wins, returning `python` instead of
`cloud`. -/
theorem course_category_raw_table_counterexample :
    determine_course_category [] [] (some (str "cloud")) = str "general" ∧
    determine_course_category (str "Python 101") [] (some (str "devops")) =
      str "python" := by
  refine ⟨by decide, by decide⟩

/-- C8 (amended): a truthy raw category is preferred only when it matches
one of the four raw-branch patterns (python, security/cyber,
ai/machine-learning, web); when it matches none of them the function falls
through and behaves exactly as if the raw category were absent, scanning
title+description with the full keyword table and defaulting to
`general`. -/
theorem course_category_raw_branch_amended (title desc rc : Str)
    (hne : rc.isEmpty = false) :
    (∀ c, rawCategoryMatch (pyLower rc) = some c →
      determine_course_category title desc (some rc) = c) ∧
    (rawCategoryMatch (pyLower rc) = none →
      determine_course_category title desc (some rc) =
        determine_course_category title desc none) ∧
    determine_course_category title desc none =
      courseTextScan (pyLower (title ++ ' ' :: desc)) := by
  refine ⟨?_, ?_, rfl⟩
  · intro c hc
    simp [determine_course_category, hne, hc]
  · intro hc
    simp [determine_course_category, hne, hc]

/-- C8 (witness): the amended theorem applied to raw category `"Python"`,
which the raw branch does match. -/
theorem course_category_raw_branch_amended_witness :
    (str "Python").isEmpty = false ∧
    rawCategoryMatch (pyLower (str "Python")) = some (str "python") ∧
    determine_course_category (str "t") (str "d") (some (str "Python")) =
      str "python" :=
  ⟨by decide, by decide,
   (course_category_raw_branch_amended (str "t") (str "d") (str "Python")
      (by decide)).1 (str "python") (by decide)⟩

/-! ## Helper lemmas: fetch retry -/

/-- `fetch_json` at the default 3 retries walks attempts `0, 1, 2`. -/
theorem fetch_json_eq {β : Type} (att : Nat → Attempt β) :
    fetch_json att 3 = fetchJsonGo att 3 [0, 1, 2] := rfl

/-- A failed attempt falls through to the backoff and the next attempt. -/
theorem fetchJsonGo_fail {β : Type} (att : Nat → Attempt β)
    (retries a : Nat) (rest : List Nat) (ha : (att a).isOk = false) :
    fetchJsonGo att retries (a :: rest) =
      ((fetchJsonGo att retries rest).1,
        if a < retries - 1 then 2 ^ a :: (fetchJsonGo att retries rest).2
        else (fetchJsonGo att retries rest).2) := by
  cases h : att a with
  | ok b => rw [h] at ha; simp [Attempt.isOk] at ha
  | timeout => simp [fetchJsonGo, h]
  | httpError s => simp [fetchJsonGo, h]
  | decodeFail => simp [fetchJsonGo, h]

/-- A successful attempt returns its body at once, with no further sleeps. -/
theorem fetchJsonGo_ok {β : Type} (att : Nat → Attempt β)
    (retries a : Nat) (rest : List Nat) (b : β) (ha : att a = .ok b) :
    fetchJsonGo att retries (a :: rest) = (some b, []) := by
  simp [fetchJsonGo, ha]

/-- C4 (counterexample): the three helpers do *not* share one retry
policy.  On an oracle whose first attempt is an HTTP 500 and whose second
attempt succeeds, `fetch_html` and `fetch_rss` return `None` — they make a
single attempt and never retry — while `fetch_json` retries and succeeds;
and on an oracle whose first body fails to decode, `fetch_json` *does*
retry the call and succeeds rather than yielding an empty result. -/
theorem fetch_retry_policy_counterexample :
    fetch_html attRetryDemo = none ∧
    fetch_rss attRssDemo = none ∧
    (fetch_json attRetryDemo 3).1 = some (str "body") ∧
    (fetch_json attDecodeDemo 3).1 = some (str "body") := by
  refine ⟨by decide, by decide, by decide, by decide⟩

/-- C4 (amended): `fetch_json` alone retries — up to 3 attempts, sleeping
`2 ** attempt` seconds (1 then 2) after each failed non-final attempt, and
retrying timeouts, non-200 statuses *and* body-decode failures alike,
returning the first decoded body; `fetch_rss` and `fetch_html` make
exactly one attempt, returning `None` on any failure (and `fetch_rss`
returns `None` for a feed with no entries). -/
theorem fetch_retry_policy_amended {β γ : Type} (att : Nat → Attempt β)
    (attr : Nat → Attempt (List γ)) (atth : Nat → Attempt Str) :
    ((∀ i, i < 3 → (att i).isOk = false) → fetch_json att 3 = (none, [1, 2])) ∧
    (∀ k b, k < 3 → (∀ i, i < k → (att i).isOk = false) → att k = .ok b →
      fetch_json att 3 =
        (some b, (List.range (min k 2)).map fun a => 2 ^ a)) ∧
    ((attr 0).isOk = false → fetch_rss attr = none) ∧
    (∀ es, attr 0 = .ok es →
      fetch_rss attr = if es.isEmpty then none else some es) ∧
    ((atth 0).isOk = false → fetch_html atth = none) ∧
    (∀ b, atth 0 = .ok b → fetch_html atth = some b) := by
  refine ⟨?_, ?_, ?_, ?_, ?_, ?_⟩
  · intro hfail
    rw [fetch_json_eq,
      fetchJsonGo_fail att 3 0 [1, 2] (hfail 0 (by omega)),
      fetchJsonGo_fail att 3 1 [2] (hfail 1 (by omega)),
      fetchJsonGo_fail att 3 2 [] (hfail 2 (by omega))]
    simp [fetchJsonGo]
  · intro k b hk hprev hok
    interval_cases k
    · rw [fetch_json_eq, fetchJsonGo_ok att 3 0 [1, 2] b hok]
      simp
    · rw [fetch_json_eq,
        fetchJsonGo_fail att 3 0 [1, 2] (hprev 0 (by omega)),
        fetchJsonGo_ok att 3 1 [2] b hok]
      simp
      decide
    · rw [fetch_json_eq,
        fetchJsonGo_fail att 3 0 [1, 2] (hprev 0 (by omega)),
        fetchJsonGo_fail att 3 1 [2] (hprev 1 (by omega)),
        fetchJsonGo_ok att 3 2 [] b hok]
      simp
      decide
  · intro h
    cases ha : attr 0 with
    | ok es => rw [ha] at h; simp [Attempt.isOk] at h
    | timeout => simp [fetch_rss, ha]
    | httpError s => simp [fetch_rss, ha]
    | decodeFail => simp [fetch_rss, ha]
  · intro es ha
    simp [fetch_rss, ha]
  · intro h
    cases ha : atth 0 with
    | ok b => rw [ha] at h; simp [Attempt.isOk] at h
    | timeout => simp [fetch_html, ha]
    | httpError s => simp [fetch_html, ha]
    | decodeFail => simp [fetch_html, ha]
  · intro b ha
    simp [fetch_html, ha]

/-- C4 (witness): the amended theorem at an oracle that always times out
(3 attempts, sleeps 1 and 2, empty result) and an oracle that succeeds at
once. -/
theorem fetch_retry_policy_amended_witness :
    (∀ i, i < 3 → (attTimeoutDemo i).isOk = false) ∧
    fetch_json attTimeoutDemo 3 = (none, [1, 2]) ∧
    attRssOkDemo 0 = .ok [7] ∧
    fetch_rss attRssOkDemo = some [7] := by
  refine ⟨by decide, ?_, rfl, ?_⟩
  · exact (fetch_retry_policy_amended attTimeoutDemo attRssOkDemo
      attTimeoutDemo).1 (by decide)
  · have h := (fetch_retry_policy_amended attTimeoutDemo attRssOkDemo
      attTimeoutDemo).2.2.2.1 [7] rfl
    simpa using h

/-! ## Helper lemmas: the scheduler tick -/

/-- A tick touches every task: the task list keeps its length. -/
theorem runTick_length (ok : Nat → Bool) (now : Int) :
    ∀ (ts : List STask) (i : Nat), (runTick ok now ts i).length = ts.length := by
  intro ts
  induction ts with
  | nil => intro i; simp [runTick]
  | cons t rest ih => intro i; simp [runTick, ih]

/-- A tick acts on each task independently, by position. -/
theorem runTick_getD (ok : Nat → Bool) (now : Int) :
    ∀ (ts : List STask) (i j : Nat) (dflt : STask), j < ts.length →
      (runTick ok now ts i).getD j dflt =
        (if shouldRun now (ts.getD j dflt) then
          if ok (i + j) then { ts.getD j dflt with lastRun := some now }
          else ts.getD j dflt
        else ts.getD j dflt) := by
  intro ts
  induction ts with
  | nil => intro i j dflt hj; simp at hj
  | cons t rest ih =>
    intro i j dflt hj
    cases j with
    | zero => simp [runTick]
    | succ j' =>
      simp only [runTick, List.getD_cons_succ]
      have harith : i + 1 + j' = i + (j' + 1) := by omega
      rw [ih (i + 1) j' dflt (by simpa using hj), harith]

/-- Eligibility is monotone in time: an eligible task stays eligible. -/
theorem shouldRun_mono (t : STask) (now now' : Int)
    (h : shouldRun now t = true) (hle : now ≤ now') :
    shouldRun now' t = true := by
  cases hlr : t.lastRun with
  | none => simp [shouldRun, hlr]
  | some lr =>
    simp only [shouldRun, hlr, decide_eq_true_eq] at h ⊢
    omega

/-- C7: on a scheduler tick, a task whose coroutine raises has the failure
caught at the task boundary: its `last_run` is left unchanged (so it stays
eligible at every later tick and is retried), every other task of the tick
is processed exactly as it would be on its own, and no exception escapes
the tick (the tick is a total function of the task outcomes). -/
theorem scheduler_tick_failure_isolation (ok : Nat → Bool) (now : Int)
    (ts : List STask) (i : Nat) :
    (runTick ok now ts i).length = ts.length ∧
    (∀ j dflt, j < ts.length →
      (runTick ok now ts i).getD j dflt =
        (if shouldRun now (ts.getD j dflt) then
          if ok (i + j) then { ts.getD j dflt with lastRun := some now }
          else ts.getD j dflt
        else ts.getD j dflt)) ∧
    (∀ j dflt, j < ts.length → shouldRun now (ts.getD j dflt) = true →
      ok (i + j) = false →
      (runTick ok now ts i).getD j dflt = ts.getD j dflt ∧
      ∀ now' : Int, now ≤ now' →
        shouldRun now' ((runTick ok now ts i).getD j dflt) = true) := by
  refine ⟨runTick_length ok now ts i, fun j dflt hj => runTick_getD ok now ts i j dflt hj, ?_⟩
  intro j dflt hj hsr hok
  have heq : (runTick ok now ts i).getD j dflt = ts.getD j dflt := by
    rw [runTick_getD ok now ts i j dflt hj, hsr, hok]
    simp
  refine ⟨heq, fun now' hle => ?_⟩
  rw [heq]
  exact shouldRun_mono _ now now' hsr hle

/-- An MD5 hex digest is never the empty string (it has 16 bytes, each
rendered as two hex characters), so an attached hash is always truthy. -/
theorem md5Hex_isEmpty_false (s : Str) : (md5Hex s).isEmpty = false := by
  simp [md5Hex, md5Digest, wordLE, byteHex]

/-- C6 (counterexample): a raw job record with no `url`, `link` or
`apply_url` key is *not* dropped during normalization: it is normalized
with `url = ""` (and the default title `"Untitled"`), hashed, kept by the
deduplicator, and inserted into the store — so the store ends up holding a
record with an empty `url`. -/
theorem missing_url_record_stored_counterexample :
    (normalize_job_data emptyRawJob (str "remotive")).url = [] ∧
    ((run_job_fetcher_store
        [attachJobHash (normalize_job_data emptyRawJob (str "remotive"))]
        []).store.map fun it => it.data.url) = [[]] ∧
    (run_job_fetcher_store
        [attachJobHash (normalize_job_data emptyRawJob (str "remotive"))]
        []).inserted = 1 := by
  refine ⟨by decide, by decide, by decide⟩

/-- C6 (amended): when the `url ?? link ?? apply_url` fallback chain yields
nothing, `normalize_job_data` still returns the record, with `url = ""`
(no record is ever dropped during normalization — the function is total
and `title` falls back to a default); the record is then hashed, survives
deduplication, and is upserted into the store. -/
theorem missing_url_record_kept_amended (raw : RawJob) (source : Str)
    (hu : raw.url = none) (hl : raw.link = none) (ha : raw.apply_url = none) :
    (normalize_job_data raw source).url = [] ∧
    (run_job_fetcher_store [attachJobHash (normalize_job_data raw source)]
        []).store =
      [attachJobHash (normalize_job_data raw source)] := by
  refine ⟨?_, ?_⟩
  · simp [normalize_job_data, hu, hl, ha, pyOrStr]
  · have hne : (generate_job_hash (normalize_job_data raw source).title
        (normalize_job_data raw source).company
        (normalize_job_data raw source).url).isEmpty = false := by
      unfold generate_job_hash
      exact md5Hex_isEmpty_false _
    simp only [run_job_fetcher_store, attachJobHash, List.isEmpty_cons,
      Bool.false_eq_true, if_false, deduplicate_list, dedupLoop, hne,
      Bool.not_false, List.contains_nil, Bool.and_self, if_true,
      List.nil_append, runStoreLoop, mongoUpdateOne]

/-- C6 (witness): the amended theorem at a concrete record that carries a
title but no URL under any key. -/
theorem missing_url_record_kept_amended_witness :
    titledRawJob.url = none ∧
    (normalize_job_data titledRawJob (str "linkedin")).url = [] ∧
    (run_job_fetcher_store
        [attachJobHash (normalize_job_data titledRawJob (str "linkedin"))]
        []).store =
      [attachJobHash (normalize_job_data titledRawJob (str "linkedin"))] :=
  ⟨rfl,
   (missing_url_record_kept_amended titledRawJob (str "linkedin")
      rfl rfl rfl).1,
   (missing_url_record_kept_amended titledRawJob (str "linkedin")
      rfl rfl rfl).2⟩

/-- C7 (witness): the tick theorem at two concrete tasks where the first,
eligible task raises: it is left unchanged and stays eligible later. -/
theorem scheduler_tick_failure_isolation_witness :
    (0 : Nat) < demoTasks.length ∧
    shouldRun 7200 (demoTasks.getD 0 ⟨0, none⟩) = true ∧
    demoTaskOk (0 + 0) = false ∧
    (runTick demoTaskOk 7200 demoTasks 0).getD 0 ⟨0, none⟩ =
      demoTasks.getD 0 ⟨0, none⟩ :=
  ⟨by decide, by decide, by decide,
   ((scheduler_tick_failure_isolation demoTaskOk 7200 demoTasks 0).2.2 0
      ⟨0, none⟩ (by decide) (by decide) (by decide)).1⟩

end EverythingInBot
